import Mathlib

/-
Verification of the JSON Schema translator in `marshmallow_jsonschema/base.py`.

The translator turns a marshmallow schema object (a collection of named, typed
fields with validators and metadata) into a JSON Schema document
`{properties, type, required}`.  The development below is a shallow embedding
of `base.py`: Python dicts become insertion-ordered association lists, the
type-mapping table `TYPE_MAP` and the dispatch in `get_properties` are
translated function by function, and the Python call stack is made explicit
through a fuel parameter (CPython aborts nested recursion with a
`RecursionError` once the configured interpreter recursion limit is
exhausted; fuel exhaustion models that).
-/

/-- JSON-compatible Python values: strings, integers, booleans, `None`,
lists, and insertion-ordered dicts with string keys. -/
inductive Value where
  | str (s : String)
  | int (n : Int)
  | bool (b : Bool)
  | null
  | arr (vs : List Value)
  | obj (kvs : List (String × Value))

/-- A JSON Schema fragment: a Python dict with string keys, modelled as an
insertion-ordered association list (Python dicts preserve insertion order). -/
abbrev Frag := List (String × Value)

/-- Python `d[k]` / `k in d` combined: the value stored under key `k`, if the
key is present. -/
def dget (d : Frag) (k : String) : Option Value :=
  (d.find? (fun p => p.1 == k)).map (fun p => p.2)

/-- Python `d[k] = v` on a dict: an existing key keeps its position and gets
the new value; a fresh key is appended at the end.  (Keys of a dict are
unique, so updating the first occurrence is the dict update.) -/
def dinsert (d : Frag) (k : String) (v : Value) : Frag :=
  match d with
  | [] => [(k, v)]
  | (k1, v1) :: tl => if k1 == k then (k1, v) :: tl else (k1, v1) :: dinsert tl k v

/-- Python `d.get(k, dflt)` where `dflt` is itself an optional value: the
stored value when the key is present (even if that value is `None`),
otherwise the default. -/
def pyGet (d : Frag) (k : String) (dflt : Option Value) : Option Value :=
  match dget d k with
  | some v => some v
  | none => dflt

/-- Python truthiness of a value (`if title:`): empty strings, zero, `False`,
`None` and empty containers are falsy. -/
def truthy : Value → Bool
  | .str s => !(s == "")
  | .int n => !(n == 0)
  | .bool b => b
  | .null => false
  | .arr vs => !vs.isEmpty
  | .obj kvs => !kvs.isEmpty

/-- Truthiness of a possibly-absent value: an absent value is falsy. -/
def truthyOpt : Option Value → Bool
  | some v => truthy v
  | none => false

/-- The Python value types that appear as keys of `TYPE_MAP` in `base.py`,
plus `other` for any Python type that is not a key of that table (a schema's
`TYPE_MAPPING` may mention arbitrary types). -/
inductive PyType where
  | dict | list | time | timedelta | datetime | date | uuid | text | binary
  | decimal | set | tuple | float | int | bool
  | other (tyName : String)
deriving DecidableEq

/-- The module-level `TYPE_MAP` dict of `base.py`: native Python type to base
JSON Schema fragment.  `none` models a `KeyError` on `TYPE_MAP[pytype]` for a
type that is not a key. -/
def TYPE_MAP : PyType → Option Frag
  | .dict => some [("type", .str "object")]
  | .list => some [("type", .str "array")]
  | .time => some [("type", .str "string"), ("format", .str "time")]
  | .timedelta => some [("type", .str "string")]
  | .datetime => some [("type", .str "string"), ("format", .str "date-time")]
  | .date => some [("type", .str "string"), ("format", .str "date")]
  | .uuid => some [("type", .str "string"), ("format", .str "uuid")]
  | .text => some [("type", .str "string")]
  | .binary => some [("type", .str "string")]
  | .decimal => some [("type", .str "number"), ("format", .str "decimal")]
  | .set => some [("type", .str "array")]
  | .tuple => some [("type", .str "array")]
  | .float => some [("type", .str "number"), ("format", .str "float")]
  | .int => some [("type", .str "number"), ("format", .str "integer")]
  | .bool => some [("type", .str "boolean")]
  | .other _ => none

/-- A marshmallow field class, identified by its class name together with the
names of its proper superclasses (used only for `isinstance` checks; dict
lookups on classes use class identity, modelled as equality of this
structure). -/
structure FieldCls where
  clsName : String
  ancestors : List String
deriving DecidableEq

/-- The auxiliary field-class-to-native-type association built at the top of
`get_properties` (the inverted `obj.TYPE_MAPPING` plus five fixed entries),
as an insertion-ordered dict keyed by field class. -/
abbrev ClsMapping := List (FieldCls × PyType)

/-- Dict assignment `mapping[cls] = t` (update in place or append; keys are
unique, so updating the first occurrence is the dict update). -/
def clsInsert (m : ClsMapping) (c : FieldCls) (t : PyType) : ClsMapping :=
  match m with
  | [] => [(c, t)]
  | (c1, t1) :: tl => if c1 == c then (c1, t) :: tl else (c1, t1) :: clsInsert tl c t

/-- Dict lookup `mapping[cls]` combined with `cls in mapping`: the lookup is
by exact class, never by a superclass. -/
def clsLookup (m : ClsMapping) (c : FieldCls) : Option PyType :=
  (m.find? (fun p => p.1 == c)).map (fun p => p.2)

/-- Python `isinstance(field, fields.Nested)`: the field's class is `Nested`
itself or has `Nested` among its superclasses. -/
def isNestedInstance (c : FieldCls) : Bool :=
  c.clsName == "Nested" || c.ancestors.contains "Nested"

/-- The marshmallow `fields.Email` class. -/
def emailCls : FieldCls := ⟨"Email", ["String", "Field", "FieldABC"]⟩

/-- The marshmallow `fields.Dict` class. -/
def dictFieldCls : FieldCls := ⟨"Dict", ["Field", "FieldABC"]⟩

/-- The marshmallow `fields.List` class. -/
def listFieldCls : FieldCls := ⟨"List", ["Field", "FieldABC"]⟩

/-- The marshmallow `fields.Url` class. -/
def urlCls : FieldCls := ⟨"Url", ["String", "Field", "FieldABC"]⟩

/-- The marshmallow `fields.LocalDateTime` class. -/
def localDateTimeCls : FieldCls := ⟨"LocalDateTime", ["DateTime", "Field", "FieldABC"]⟩

/-- The marshmallow `fields.Nested` class. -/
def nestedCls : FieldCls := ⟨"Nested", ["Field", "FieldABC"]⟩

/-- The mapping built at the top of `get_properties` in `base.py`:
`mapping = {v: k for k, v in obj.TYPE_MAPPING.items()}` followed by the five
fixed assignments for `Email`, `Dict`, `List`, `Url` and `LocalDateTime`. -/
def mkMapping (tm : List (PyType × FieldCls)) : ClsMapping :=
  let mapping := tm.foldl (fun m p => clsInsert m p.2 p.1) []
  let mapping := clsInsert mapping emailCls .text
  let mapping := clsInsert mapping dictFieldCls .dict
  let mapping := clsInsert mapping listFieldCls .list
  let mapping := clsInsert mapping urlCls .text
  clsInsert mapping localDateTimeCls .datetime

/-- A marshmallow validator attached to a field.  `length`, `range` and
`oneOf` are the three classes in `FIELD_VALIDATORS`; `other` stands for any
validator whose class is not a key of that dict. -/
inductive Validator where
  | length (lo hi eq : Option Int)
  | range (lo hi : Option Int) (loExcl hiExcl : Bool)
  | oneOf (choices : List Value)
  | other (clsName : String)

mutual
/-- A bound marshmallow field object as `get_properties` sees it: its bound
name, `attribute` override, `required` flag, `default` (absent models the
`missing` sentinel), validators, metadata dict, class, the optional
`_jsonschema_type_mapping` override hook, and — read only on `Nested`
instances — the nested sub-schema object and the `many` flag. -/
inductive FieldObj where
  | mk (name : String) (attr : Option String) (required : Bool)
      (default : Option Value) (validators : List Validator)
      (metadata : List (String × Value)) (cls : FieldCls)
      (override : Option (List (String × Value)))
      (nestedSub : SchemaObj) (many : Bool)
/-- A marshmallow schema object being dumped: its class-level `TYPE_MAPPING`
and its bound fields (`obj.fields`, a dict whose keys are the bound field
names). -/
inductive SchemaObj where
  | mk (typeMapping : List (PyType × FieldCls)) (fields : List FieldObj)
end

/-- The field's bound name (the key of `obj.fields` it was bound under). -/
def FieldObj.name : FieldObj → String
  | .mk n _ _ _ _ _ _ _ _ _ => n

/-- The field's `attribute` override. -/
def FieldObj.attr : FieldObj → Option String
  | .mk _ a _ _ _ _ _ _ _ _ => a

/-- The field's `required` flag. -/
def FieldObj.required : FieldObj → Bool
  | .mk _ _ r _ _ _ _ _ _ _ => r

/-- The field's `default`, or `none` for the `missing` sentinel. -/
def FieldObj.default : FieldObj → Option Value
  | .mk _ _ _ d _ _ _ _ _ _ => d

/-- The field's validators, in declaration order. -/
def FieldObj.validators : FieldObj → List Validator
  | .mk _ _ _ _ vs _ _ _ _ _ => vs

/-- The field's metadata dict. -/
def FieldObj.metadata : FieldObj → List (String × Value)
  | .mk _ _ _ _ _ md _ _ _ _ => md

/-- The field's class. -/
def FieldObj.cls : FieldObj → FieldCls
  | .mk _ _ _ _ _ _ c _ _ _ => c

/-- The fragment returned by the field's `_jsonschema_type_mapping` hook, if
the field's class defines one. -/
def FieldObj.override : FieldObj → Option (List (String × Value))
  | .mk _ _ _ _ _ _ _ o _ _ => o

/-- The nested sub-schema object (`field.nested()`); only meaningful, and
only read, on `Nested` instances. -/
def FieldObj.nestedSub : FieldObj → SchemaObj
  | .mk _ _ _ _ _ _ _ _ ns _ => ns

/-- The `many` flag of a `Nested` field. -/
def FieldObj.many : FieldObj → Bool
  | .mk _ _ _ _ _ _ _ _ _ m => m

/-- The same field with its validator list replaced. -/
def FieldObj.setValidators : FieldObj → List Validator → FieldObj
  | .mk n a r d _ md c o ns m, vs => .mk n a r d vs md c o ns m

/-- The schema object's class-level `TYPE_MAPPING`. -/
def SchemaObj.typeMapping : SchemaObj → List (PyType × FieldCls)
  | .mk tm _ => tm

/-- The schema object's bound fields. -/
def SchemaObj.fields : SchemaObj → List FieldObj
  | .mk _ fs => fs

/-- Lexicographic comparison of strings as lists of code points, the order
Python uses to compare `str` values. -/
def charListLe : List Char → List Char → Bool
  | [], _ => true
  | _ :: _, [] => false
  | a :: as, b :: bs =>
    if a.toNat < b.toNat then true
    else if b.toNat < a.toNat then false
    else charListLe as bs

/-- Python `a <= b` on strings: code-point lexicographic order. -/
def strLe (a b : String) : Bool :=
  charListLe a.data b.data

/-- The field order used by `sorted(obj.fields.items())`: lexicographic by
bound field name. -/
def fieldLe (a b : FieldObj) : Prop :=
  strLe a.name b.name = true

instance : DecidableRel fieldLe :=
  fun a b => inferInstanceAs (Decidable (strLe a.name b.name = true))

/-- Python `sorted(obj.fields.items())`: the fields in lexicographic order of
their bound names (dict keys are unique, so the name decides the order;
`insertionSort` is stable, like Python's sort). -/
def sortFields (fs : List FieldObj) : List FieldObj :=
  fs.insertionSort fieldLe

/-- The `get_required` method of `JSONSchema`: the bound names of the
required fields, in sorted field order. -/
def get_required (obj : SchemaObj) : List String :=
  ((sortFields obj.fields).filter (fun f => f.required)).map FieldObj.name

/-- Python `field.attribute or field.name`: the attribute override when it is
truthy (a non-empty string), otherwise the bound name. -/
def attrOrName (field : FieldObj) : String :=
  match field.attr with
  | some a => if a == "" then field.name else a
  | none => field.name

/-- The `_from_python_type` classmethod of `JSONSchema`: start from
`{title: attribute-or-name}`, copy the `TYPE_MAP` entry for the resolved
Python type key by key, and add `default` when the field declares one.
`none` models the `KeyError` raised by `TYPE_MAP[pytype]` when the resolved
type is not a key of the table. -/
def from_python_type (field : FieldObj) (pytype : PyType) : Option Frag :=
  match TYPE_MAP pytype with
  | none => none
  | some entries =>
    let json_schema : Frag := [("title", .str (attrOrName field))]
    let json_schema := entries.foldl (fun s p => dinsert s p.1 p.2) json_schema
    match field.default with
    | some d => dinsert json_schema "default" d
    | none => json_schema

/-- Modelled from the spec: `handle_length` from the repository's
`validation` module, which is not under `src/`.  Per §4.2 it sets
`minLength`/`maxLength`, or `minItems`/`maxItems` when the fragment's `type`
is array-like, and only for the bounds actually specified (an exact length
sets both keys). -/
def handle_length (schema : Frag) (lo hi eq : Option Int) : Frag :=
  let isArray := match dget schema "type" with
    | some (.str t) => t == "array"
    | _ => false
  let loKey := if isArray then "minItems" else "minLength"
  let hiKey := if isArray then "maxItems" else "maxLength"
  match eq with
  | some e => dinsert (dinsert schema loKey (.int e)) hiKey (.int e)
  | none =>
    let schema := match lo with
      | some m => dinsert schema loKey (.int m)
      | none => schema
    match hi with
    | some m => dinsert schema hiKey (.int m)
    | none => schema

/-- Modelled from the spec: `handle_range` from the repository's
`validation` module, which is not under `src/`.  Per §4.2 it sets
`minimum`/`maximum`, choosing the exclusive key variants when the bound is
exclusive, and only for bounds actually specified. -/
def handle_range (schema : Frag) (lo hi : Option Int) (loExcl hiExcl : Bool) : Frag :=
  let schema := match lo with
    | some m => dinsert schema (if loExcl then "exclusiveMinimum" else "minimum") (.int m)
    | none => schema
  match hi with
  | some m => dinsert schema (if hiExcl then "exclusiveMaximum" else "maximum") (.int m)
  | none => schema

/-- Modelled from the spec: `handle_one_of` from the repository's
`validation` module, which is not under `src/`.  Per §4.2 it sets `enum` to
the ordered sequence of allowed values. -/
def handle_one_of (schema : Frag) (choices : List Value) : Frag :=
  dinsert schema "enum" (.arr choices)

/-- The validator loop body of `get_properties`: a validator whose class is a
key of `FIELD_VALIDATORS` rewrites the fragment through its handler; any
other validator class is skipped and leaves the fragment unchanged. -/
def applyValidator (schema : Frag) (v : Validator) : Frag :=
  match v with
  | .length lo hi eq => handle_length schema lo hi eq
  | .range lo hi loExcl hiExcl => handle_range schema lo hi loExcl hiExcl
  | .oneOf choices => handle_one_of schema choices
  | .other _ => schema

/-- Python `metadata = field.metadata.get('metadata', {})` in
`apply_metadata`: the nested metadata sub-dict (the host framework supplies a
dict under that key when it is present at all). -/
def metaSubDict (md : Frag) : Frag :=
  match dget md "metadata" with
  | some (.obj kvs) => kvs
  | _ => []

/-- Python `field.metadata.get('title', metadata.get('title'))`: the title
found for the field, preferring the direct field-level key over the nested
`metadata` sub-dict. -/
def mdTitle (md : Frag) : Option Value :=
  pyGet md "title" (dget (metaSubDict md) "title")

/-- Python `field.metadata.get('description', metadata.get('description'))`:
the description found for the field, preferring the direct field-level key
over the nested `metadata` sub-dict. -/
def mdDescription (md : Frag) : Option Value :=
  pyGet md "description" (dget (metaSubDict md) "description")

/-- The `apply_metadata` classmethod of `JSONSchema`: read `title` and
`description` from the field's metadata dict, falling back to its nested
`metadata` sub-dict, and set each on the fragment only when the value found
is truthy. -/
def apply_metadata (field : FieldObj) (schema : Frag) : Frag :=
  let title := mdTitle field.metadata
  let description := mdDescription field.metadata
  let schema := match title with
    | some t => if truthy t then dinsert schema "title" t else schema
    | none => schema
  match description with
  | some d => if truthy d then dinsert schema "description" d else schema
  | none => schema

/-- Models the Python string `'%s' % field` for a marshmallow field: the
host framework's `Field.__repr__` shows the class name and field attributes
such as the `attribute` override and the `required` flag; the bound field
name is not part of the repr. -/
def fieldRepr (field : FieldObj) : String :=
  "<fields." ++ field.cls.clsName ++ "(attribute=" ++
    (match field.attr with
      | some a => a
      | none => "None") ++
    ", required=" ++ (if field.required then "True" else "False") ++ ")>"

/-- The message of the `ValueError` raised by `get_properties` for an
unsupported field: `'unsupported field type %s' % field`. -/
def unsupportedMsg (field : FieldObj) : String :=
  "unsupported field type " ++ fieldRepr field

/-- The ways a translation aborts: the `ValueError` for an unsupported field
class, the `KeyError` on `TYPE_MAP` for a mapped class whose native type is
not in the table, and the `RecursionError` CPython raises when the
interpreter recursion limit is exhausted. -/
inductive TranslationError where
  | unsupportedField (msg : String)
  | typeMapKeyError (t : PyType)
  | recursionLimit
deriving DecidableEq

/-- The `_from_nested_schema` classmethod of `JSONSchema`:
`cls().dump(field.nested()).data`, wrapped — when the field has `many` set —
into `{type: [array] or [array, null], items: sub-document}` depending on the
`required` flag.  `dump` is the recursive schema translation. -/
def from_nested_schema (dump : SchemaObj → Except TranslationError Frag)
    (field : FieldObj) : Except TranslationError Frag :=
  match dump field.nestedSub with
  | .error e => .error e
  | .ok schema =>
    if field.many then
      .ok [("type", if field.required then .arr [.str "array"]
                    else .arr [.str "array", .str "null"]),
           ("items", .obj schema)]
    else
      .ok schema

/-- The dispatch at the top of the per-field loop body of `get_properties`:
the starting fragment for a field, first match wins — the
`_jsonschema_type_mapping` override, then the exact field class in the
mapping via `_from_python_type`, then `isinstance(field, Nested)` via
`_from_nested_schema`, else the `ValueError`. -/
def resolveBase (dump : SchemaObj → Except TranslationError Frag)
    (mapping : ClsMapping) (field : FieldObj) : Except TranslationError Frag :=
  match field.override with
  | some schema => .ok schema
  | none =>
    match clsLookup mapping field.cls with
    | some pytype =>
      match from_python_type field pytype with
      | some schema => .ok schema
      | none => .error (.typeMapKeyError pytype)
    | none =>
      if isNestedInstance field.cls then
        from_nested_schema dump field
      else
        .error (.unsupportedField (unsupportedMsg field))

/-- The per-field body of `get_properties`: resolve the starting fragment,
then fold the validator handlers over the field's validators in order, then
apply `apply_metadata` last. -/
def translateField (dump : SchemaObj → Except TranslationError Frag)
    (mapping : ClsMapping) (field : FieldObj) : Except TranslationError Frag :=
  match resolveBase dump mapping field with
  | .error e => .error e
  | .ok schema =>
    .ok (apply_metadata field (field.validators.foldl (fun s v => applyValidator s v) schema))

/-- Modelled from the spec: the resolution order the spec states in §4.4
(override first, then the nested-schema branch, then the type-mapping
table), for comparison with the code's `translateField`, whose mapping
lookup precedes the `isinstance(field, Nested)` check. -/
def translateFieldSpecOrder (dump : SchemaObj → Except TranslationError Frag)
    (mapping : ClsMapping) (field : FieldObj) : Except TranslationError Frag :=
  let start : Except TranslationError Frag :=
    match field.override with
    | some schema => .ok schema
    | none =>
      if isNestedInstance field.cls then
        from_nested_schema dump field
      else
        match clsLookup mapping field.cls with
        | some pytype =>
          match from_python_type field pytype with
          | some schema => .ok schema
          | none => .error (.typeMapKeyError pytype)
        | none => .error (.unsupportedField (unsupportedMsg field))
  match start with
  | .error e => .error e
  | .ok schema =>
    .ok (apply_metadata field (field.validators.foldl (fun s v => applyValidator s v) schema))

/-- The field loop of `get_properties`: translate every field in the given
(already sorted) order and store each fragment under `field.name`; the first
exception aborts the loop with no partial result. -/
def translateFields (dump : SchemaObj → Except TranslationError Frag)
    (mapping : ClsMapping) : List FieldObj → Except TranslationError Frag
  | [] => .ok []
  | field :: rest =>
    match translateField dump mapping field with
    | .error e => .error e
    | .ok schema =>
      match translateFields dump mapping rest with
      | .error e => .error e
      | .ok props => .ok ((field.name, .obj schema) :: props)

/-- The `get_properties` method of `JSONSchema`: build the class mapping from
`obj.TYPE_MAPPING`, then translate the fields in sorted order. -/
def get_properties (dump : SchemaObj → Except TranslationError Frag)
    (obj : SchemaObj) : Except TranslationError Frag :=
  translateFields dump (mkMapping obj.typeMapping) (sortFields obj.fields)

/-- `JSONSchema().dump(obj).data`: the translated document
`{properties, type, required}` (in the declaration order of the three
`JSONSchema` fields).  The fuel parameter is the remaining Python recursion
budget: each recursive `_from_nested_schema` call descends one level, and an
exhausted budget is CPython's `RecursionError`.  Any exception raised while
building `properties` aborts the dump with no partial output. -/
def dumpSchema : Nat → SchemaObj → Except TranslationError Frag
  | 0, _ => .error .recursionLimit
  | fuel + 1, obj =>
    match get_properties (fun s => dumpSchema fuel s) obj with
    | .error e => .error e
    | .ok props =>
      .ok [("properties", .obj props), ("type", .str "object"),
           ("required", .arr ((get_required obj).map Value.str))]
termination_by structural fuel => fuel

mutual
/-- The nesting depth of the schema graph along the branches that actually
recurse: one for the schema itself plus the deepest recursing field. -/
def recDepth : SchemaObj → Nat
  | .mk tm fs => 1 + recDepthFields (mkMapping tm) fs
/-- The deepest recursion demanded by any field of the list. -/
def recDepthFields : ClsMapping → List FieldObj → Nat
  | _, [] => 0
  | mapping, f :: rest => Nat.max (recDepthField mapping f) (recDepthFields mapping rest)
/-- The recursion a single field demands: positive exactly when the field
resolves through the nested-schema branch (no override, class not in the
mapping, `isinstance` of `Nested`). -/
def recDepthField : ClsMapping → FieldObj → Nat
  | mapping, .mk _ _ _ _ _ _ c o ns _ =>
    match o with
    | some _ => 0
    | none =>
      match clsLookup mapping c with
      | some _ => 0
      | none => if isNestedInstance c then recDepth ns else 0
end

/-- A plain `Nested` field (no override, no validators, no metadata) bound
under the given name, referencing the given sub-schema. -/
def plainNestedField (nm : String) (sub : SchemaObj) (req many : Bool) : FieldObj :=
  .mk nm none req none [] [] nestedCls none sub many

/-- A linear chain of schemas, each holding one `Nested` field referencing
the next; `chainSchema n` has nesting depth `n + 1`. -/
def chainSchema : Nat → SchemaObj
  | 0 => .mk [] []
  | n + 1 => .mk [] [plainNestedField "child" (chainSchema n) false false]

/-- The marshmallow `fields.Integer` class (a sample input for concrete
instances). -/
def intCls : FieldCls := ⟨"Integer", ["Number", "Field", "FieldABC"]⟩

/-- The marshmallow `fields.String` class (a sample input). -/
def strCls : FieldCls := ⟨"String", ["Field", "FieldABC"]⟩

/-- A sample `TYPE_MAPPING`, as a marshmallow schema class would carry:
text to the `String` field class, int to the `Integer` field class. -/
def sampleTypeMapping : List (PyType × FieldCls) := [(.text, strCls), (.int, intCls)]

/-- A required integer field bound under the name `age` (sample input). -/
def ageField : FieldObj :=
  .mk "age" none true none [] [] intCls none (.mk [] []) false

/-- An optional text field bound under the name `name` (sample input). -/
def nameField : FieldObj :=
  .mk "name" none false none [] [] strCls none (.mk [] []) false

/-- A field of a custom class that appears in no mapping (sample input for
the unsupported-field error). -/
def unmappedField : FieldObj :=
  .mk "zzuniqueqq" none false none [] [] ⟨"CustomThing", ["Field", "FieldABC"]⟩ none
    (.mk [] []) false

/-- A `TYPE_MAPPING` that maps a native type to the `Nested` field class
itself — legal input, since `TYPE_MAPPING` is caller-controlled data. -/
def nestedMappedTM : List (PyType × FieldCls) := [(.dict, nestedCls)]

/-- A `Nested` field whose class also has an entry in `nestedMappedTM`
(sample input separating the two possible dispatch orders). -/
def nestedMappedField : FieldObj :=
  .mk "thing" none false none [] [] nestedCls none (.mk [] []) false

/-- A custom strict subclass of the `String` field class, itself unmapped
(sample input for exact-class dispatch). -/
def myStrCls : FieldCls := ⟨"MyString", ["String", "Field", "FieldABC"]⟩

/-- A field of the custom `MyString` class (sample input). -/
def myStrField : FieldObj :=
  .mk "fancy" none false none [] [] myStrCls none (.mk [] []) false

/-- A one-field schema object (sample input for nested translation). -/
def innerSchema : SchemaObj := .mk sampleTypeMapping [ageField]

/-- A `Nested` many field referencing `innerSchema` (sample input). -/
def kidsField : FieldObj :=
  .mk "kids" none false none [] [] nestedCls none innerSchema true

/-- A field carrying both direct metadata keys and a nested `metadata`
sub-dict (sample input for metadata precedence). -/
def metaField : FieldObj :=
  .mk "meta" none false none []
    [("title", .str "X"),
     ("metadata", .obj [("title", .str "Y"), ("description", .str "D")])]
    strCls none (.mk [] []) false

/-- Whether the character list `s` starts with the character list `pat`. -/
def charsStart (s pat : List Char) : Bool :=
  match pat with
  | [] => true
  | p :: ps =>
    match s with
    | [] => false
    | c :: cs => c == p && charsStart cs ps
termination_by structural pat

/-- Whether the character list `pat` occurs contiguously inside `s`. -/
def occursChars (s pat : List Char) : Bool :=
  match s with
  | [] => pat.isEmpty
  | _ :: rest => charsStart s pat || occursChars rest pat

/-- Whether the string `pat` occurs as a substring of `s` (Python
`pat in s`). -/
def occursIn (s pat : String) : Bool :=
  occursChars s.data pat.data

theorem charsStart_append (pat rest : List Char) : charsStart (pat ++ rest) pat = true := by
  induction pat with
  | nil => rfl
  | cons p ps ih => simp [charsStart, ih]

theorem occursChars_append (a pat b : List Char) :
    occursChars (a ++ (pat ++ b)) pat = true := by
  induction a with
  | nil =>
    cases pat with
    | nil =>
      cases b with
      | nil => rfl
      | cons c cs => simp [occursChars, charsStart]
    | cons p ps =>
      have h := charsStart_append (p :: ps) b
      simp only [List.cons_append] at h
      simp [occursChars, h]
  | cons c cs ih => simp [occursChars, ih]

theorem charListLe_total (a b : List Char) :
    charListLe a b = true ∨ charListLe b a = true := by
  induction a generalizing b with
  | nil => left; rfl
  | cons x xs ih =>
    cases b with
    | nil => right; rfl
    | cons y ys =>
      rcases Nat.lt_trichotomy x.toNat y.toNat with h | h | h
      · left; simp [charListLe, h]
      · rcases ih ys with h2 | h2
        · left; simp [charListLe, h, h2]
        · right; simp [charListLe, h.symm, h2]
      · right; simp [charListLe, h]

theorem charListLe_trans (a b c : List Char) (h1 : charListLe a b = true)
    (h2 : charListLe b c = true) : charListLe a c = true := by
  induction a generalizing b c with
  | nil => rfl
  | cons x xs ih =>
    cases b with
    | nil => simp [charListLe] at h1
    | cons y ys =>
      cases c with
      | nil => simp [charListLe] at h2
      | cons z zs =>
        simp only [charListLe] at h1 h2 ⊢
        by_cases hxy : x.toNat < y.toNat
        · by_cases hyz : y.toNat < z.toNat
          · simp [Nat.lt_trans hxy hyz]
          · by_cases hzy : z.toNat < y.toNat
            · rw [if_neg hyz, if_pos hzy] at h2
              exact absurd h2 (by simp)
            · simp [show x.toNat < z.toNat by omega]
        · by_cases hyx : y.toNat < x.toNat
          · rw [if_neg hxy, if_pos hyx] at h1
            exact absurd h1 (by simp)
          · rw [if_neg hxy, if_neg hyx] at h1
            by_cases hyz : y.toNat < z.toNat
            · simp [show x.toNat < z.toNat by omega]
            · by_cases hzy : z.toNat < y.toNat
              · rw [if_neg hyz, if_pos hzy] at h2
                exact absurd h2 (by simp)
              · rw [if_neg hyz, if_neg hzy] at h2
                rw [if_neg (show ¬ x.toNat < z.toNat by omega),
                  if_neg (show ¬ z.toNat < x.toNat by omega)]
                exact ih ys zs h1 h2

theorem charListLe_antisymm (a b : List Char) (h1 : charListLe a b = true)
    (h2 : charListLe b a = true) : a = b := by
  induction a generalizing b with
  | nil =>
    cases b with
    | nil => rfl
    | cons y ys => simp [charListLe] at h2
  | cons x xs ih =>
    cases b with
    | nil => simp [charListLe] at h1
    | cons y ys =>
      simp only [charListLe] at h1 h2
      by_cases hxy : x.toNat < y.toNat
      · rw [if_neg (Nat.lt_asymm hxy), if_pos hxy] at h2
        exact absurd h2 (by simp)
      · by_cases hyx : y.toNat < x.toNat
        · rw [if_neg hxy, if_pos hyx] at h1
          exact absurd h1 (by simp)
        · rw [if_neg hxy, if_neg hyx] at h1
          rw [if_neg hyx, if_neg hxy] at h2
          have hn : x.toNat = y.toNat := by omega
          have hx : x = y := Char.ext (UInt32.ext hn)
          rw [hx, ih ys h1 h2]

theorem strLe_total (a b : String) : strLe a b = true ∨ strLe b a = true :=
  charListLe_total a.data b.data

theorem strLe_trans (a b c : String) (h1 : strLe a b = true) (h2 : strLe b c = true) :
    strLe a c = true :=
  charListLe_trans a.data b.data c.data h1 h2

theorem strLe_antisymm (a b : String) (h1 : strLe a b = true) (h2 : strLe b a = true) :
    a = b :=
  congrArg String.mk (charListLe_antisymm a.data b.data h1 h2)

instance : IsTotal FieldObj fieldLe :=
  ⟨fun a b => strLe_total a.name b.name⟩

instance : IsTrans FieldObj fieldLe :=
  ⟨fun a b c => strLe_trans a.name b.name c.name⟩

theorem sortFields_perm (fs : List FieldObj) : List.Perm (sortFields fs) fs :=
  List.perm_insertionSort fieldLe fs

theorem sortFields_sorted (fs : List FieldObj) : List.Sorted fieldLe (sortFields fs) :=
  List.sorted_insertionSort fieldLe fs

instance : IsAntisymm FieldObj (fun a b => fieldLe a b ∧ a.name ≠ b.name) :=
  ⟨fun a b h1 h2 => absurd (strLe_antisymm a.name b.name h1.1 h2.1) h1.2⟩

theorem sorted_strict_of_nodup (l : List FieldObj) (hs : List.Sorted fieldLe l)
    (hnd : (l.map FieldObj.name).Nodup) :
    l.Pairwise (fun a b => fieldLe a b ∧ a.name ≠ b.name) :=
  hs.and (List.pairwise_map.mp hnd)

/-- Sorting by field name is insensitive to the declaration order of the
fields, as long as the names are distinct (they are: `obj.fields` is a
dict). -/
theorem sortFields_eq_of_perm (fs1 fs2 : List FieldObj) (hp : List.Perm fs1 fs2)
    (hnd : (fs1.map FieldObj.name).Nodup) : sortFields fs1 = sortFields fs2 := by
  have hperm : List.Perm (sortFields fs1) (sortFields fs2) :=
    ((sortFields_perm fs1).trans hp).trans (sortFields_perm fs2).symm
  have hnd2 : (fs2.map FieldObj.name).Nodup := ((hp.map FieldObj.name).nodup_iff).mp hnd
  have hnds1 : ((sortFields fs1).map FieldObj.name).Nodup :=
    (((sortFields_perm fs1).map FieldObj.name).nodup_iff).mpr hnd
  have hnds2 : ((sortFields fs2).map FieldObj.name).Nodup :=
    (((sortFields_perm fs2).map FieldObj.name).nodup_iff).mpr hnd2
  exact List.eq_of_perm_of_sorted hperm
    (sorted_strict_of_nodup _ (sortFields_sorted fs1) hnds1)
    (sorted_strict_of_nodup _ (sortFields_sorted fs2) hnds2)

theorem dget_dinsert_self (d : Frag) (k : String) (v : Value) :
    dget (dinsert d k v) k = some v := by
  induction d with
  | nil => simp [dget, dinsert]
  | cons hd tl ih =>
    obtain ⟨k1, v1⟩ := hd
    by_cases h1 : (k1 == k) = true
    · simp [dget, dinsert, h1]
    · simp only [Bool.not_eq_true] at h1
      simpa [dget, dinsert, h1] using ih

theorem dget_dinsert_ne (d : Frag) (k k2 : String) (v : Value) (h : (k == k2) = false) :
    dget (dinsert d k v) k2 = dget d k2 := by
  induction d with
  | nil => simp [dget, dinsert, h]
  | cons hd tl ih =>
    obtain ⟨k1, v1⟩ := hd
    by_cases h1 : (k1 == k) = true
    · have hk : k1 = k := eq_of_beq h1
      subst hk
      simp [dget, dinsert, h1, h]
    · simp only [Bool.not_eq_true] at h1
      by_cases h12 : (k1 == k2) = true
      · simp [dget, dinsert, h1, h12]
      · simp only [Bool.not_eq_true] at h12
        simpa [dget, dinsert, h1, h12] using ih

theorem translateFields_ok_map_fst (dump : SchemaObj → Except TranslationError Frag)
    (mp : ClsMapping) : ∀ (l : List FieldObj) (props : Frag),
    translateFields dump mp l = .ok props → props.map Prod.fst = l.map FieldObj.name := by
  intro l
  induction l with
  | nil =>
    intro props h
    simp only [translateFields] at h
    cases h
    rfl
  | cons f tl ih =>
    intro props h
    simp only [translateFields] at h
    cases h1 : translateField dump mp f with
    | error e => rw [h1] at h; cases h
    | ok s =>
      rw [h1] at h
      cases h2 : translateFields dump mp tl with
      | error e => rw [h2] at h; cases h
      | ok rest =>
        rw [h2] at h
        cases h
        simp [ih rest h2]

theorem translateFields_ok_mem (dump : SchemaObj → Except TranslationError Frag)
    (mp : ClsMapping) : ∀ (l : List FieldObj) (props : Frag) (f : FieldObj),
    translateFields dump mp l = .ok props → f ∈ l →
    ∃ s, translateField dump mp f = .ok s := by
  intro l
  induction l with
  | nil =>
    intro props f _ hmem
    cases hmem
  | cons g tl ih =>
    intro props f h hmem
    simp only [translateFields] at h
    cases h1 : translateField dump mp g with
    | error e => rw [h1] at h; cases h
    | ok s =>
      rw [h1] at h
      cases h2 : translateFields dump mp tl with
      | error e => rw [h2] at h; cases h
      | ok rest =>
        rcases List.mem_cons.mp hmem with rfl | hmem2
        · exact ⟨s, h1⟩
        · exact ih rest f h2 hmem2

/-- Claim C1: a field whose class resolves through the auxiliary mapping to a
native type present in `TYPE_MAP`, with no override, no validators and no
metadata, translates to exactly the table fragment for that type, preceded by
a `title` equal to the attribute override (when truthy) or the bound field
name, and followed by a `default` entry exactly when the field declares a
default. -/
theorem claim_C1 (fuel : Nat) (mp : ClsMapping) (field : FieldObj) (T : PyType) (e : Frag)
    (hov : field.override = none)
    (hlk : clsLookup mp field.cls = some T)
    (hT : TYPE_MAP T = some e)
    (hvs : field.validators = [])
    (hmd : field.metadata = []) :
    translateField (dumpSchema fuel) mp field =
      .ok ([("title", .str (attrOrName field))] ++ e ++
        (match field.default with
          | some d => [("default", d)]
          | none => [])) := by
  cases T <;> simp only [TYPE_MAP, Option.some.injEq] at hT <;> try (exact absurd hT (by simp))
  all_goals subst hT
  all_goals
    cases hd : field.default <;>
      simp [translateField, resolveBase, hov, hlk, from_python_type, hvs, apply_metadata, mdTitle,
        mdDescription, metaSubDict, dget, pyGet, dinsert, hd, hmd, TYPE_MAP]

/-- Claim C2: on a successful dump, `required` lists exactly the bound names
of the required fields with no duplicates, every required name is a key of
`properties`, and every field contributes exactly one fragment to
`properties`, keyed by its bound (public) name. -/
theorem claim_C2 (fuel : Nat) (tm : List (PyType × FieldCls)) (fs : List FieldObj) (doc : Frag)
    (hnd : (fs.map FieldObj.name).Nodup)
    (h : dumpSchema fuel (.mk tm fs) = .ok doc) :
    ∃ props,
      dget doc "properties" = some (.obj props) ∧
      dget doc "required" = some (.arr ((get_required (SchemaObj.mk tm fs)).map Value.str)) ∧
      props.map Prod.fst = (sortFields fs).map FieldObj.name ∧
      List.Perm (props.map Prod.fst) (fs.map FieldObj.name) ∧
      (∀ nm, nm ∈ get_required (SchemaObj.mk tm fs) ↔
        ∃ f, f ∈ fs ∧ f.required = true ∧ f.name = nm) ∧
      (get_required (SchemaObj.mk tm fs)).Nodup ∧
      (∀ nm, nm ∈ get_required (SchemaObj.mk tm fs) → nm ∈ props.map Prod.fst) := by
  cases fuel with
  | zero => simp only [dumpSchema] at h; cases h
  | succ n =>
    simp only [dumpSchema, get_properties, SchemaObj.typeMapping, SchemaObj.fields] at h
    cases hp : translateFields (fun s => dumpSchema n s) (mkMapping tm) (sortFields fs) with
    | error e => rw [hp] at h; cases h
    | ok props =>
      rw [hp] at h
      cases h
      have hfst : props.map Prod.fst = (sortFields fs).map FieldObj.name :=
        translateFields_ok_map_fst _ _ _ _ hp
      have hnds : ((sortFields fs).map FieldObj.name).Nodup :=
        (((sortFields_perm fs).map FieldObj.name).nodup_iff).mpr hnd
      refine ⟨props, rfl, rfl, hfst, ?_, ?_, ?_, ?_⟩
      · rw [hfst]
        exact (sortFields_perm fs).map FieldObj.name
      · intro nm
        simp only [get_required, SchemaObj.fields]
        constructor
        · intro hmem
          obtain ⟨f, hf, rfl⟩ := List.mem_map.mp hmem
          obtain ⟨hfs, hreq⟩ := List.mem_filter.mp hf
          exact ⟨f, (sortFields_perm fs).mem_iff.mp hfs, hreq, rfl⟩
        · rintro ⟨f, hfs, hreq, rfl⟩
          exact List.mem_map.mpr ⟨f,
            List.mem_filter.mpr ⟨(sortFields_perm fs).mem_iff.mpr hfs, hreq⟩, rfl⟩
      · simp only [get_required, SchemaObj.fields]
        exact hnds.sublist ((List.filter_sublist (sortFields fs)).map FieldObj.name)
      · intro nm hmem
        simp only [get_required, SchemaObj.fields] at hmem
        obtain ⟨f, hf, rfl⟩ := List.mem_map.mp hmem
        rw [hfst]
        exact List.mem_map.mpr ⟨f, (List.mem_filter.mp hf).1, rfl⟩

/-- Claim C8: translation is deterministic and order-independent —
permuting the fields of a schema (bound names are distinct) yields the
identical document — and both the properties keys and the required list are
emitted in lexicographic order of field names. -/
theorem claim_C8 (fuel n : Nat) (tm : List (PyType × FieldCls)) (fs1 fs2 : List FieldObj)
    (hperm : List.Perm fs1 fs2) (hnd : (fs1.map FieldObj.name).Nodup) :
    dumpSchema fuel (.mk tm fs1) = dumpSchema fuel (.mk tm fs2) ∧
    List.Sorted (fun a b => strLe a b = true) (get_required (SchemaObj.mk tm fs1)) ∧
    (∀ props, translateFields (dumpSchema n) (mkMapping tm) (sortFields fs1) = .ok props →
      List.Sorted (fun a b => strLe a b = true) (props.map Prod.fst)) := by
  have hs : sortFields fs1 = sortFields fs2 := sortFields_eq_of_perm fs1 fs2 hperm hnd
  refine ⟨?_, ?_, ?_⟩
  · cases fuel with
    | zero => rfl
    | succ m =>
      simp only [dumpSchema, get_properties, get_required,
        SchemaObj.typeMapping, SchemaObj.fields]
      rw [hs]
  · simp only [get_required, SchemaObj.fields]
    have h1 : List.Sorted fieldLe (List.filter (fun f => f.required) (sortFields fs1)) :=
      (sortFields_sorted fs1).filter (fun f => f.required)
    have h2 : List.Pairwise (fun a b : FieldObj => strLe a.name b.name = true)
        (List.filter (fun f => f.required) (sortFields fs1)) := h1
    exact List.pairwise_map.mpr h2
  · intro props hp
    rw [translateFields_ok_map_fst _ _ _ _ hp]
    have h3 : List.Pairwise (fun a b : FieldObj => strLe a.name b.name = true)
        (sortFields fs1) := sortFields_sorted fs1
    exact List.pairwise_map.mpr h3

/-- Claim C3: a nested field with `many` set translates to
`{type: [array], items: <sub-document>}` when required and
`{type: [array, null], items: ...}` otherwise, where the sub-document is the
schema translation of the nested schema; the same fragment is the whole field
fragment when the field additionally has no override, validators or
metadata. -/
theorem claim_C3 (fuel : Nat) (mp : ClsMapping) (field : FieldObj) (sub : Frag)
    (hmany : field.many = true)
    (hsub : dumpSchema fuel field.nestedSub = .ok sub) :
    from_nested_schema (dumpSchema fuel) field =
      .ok [("type", if field.required then .arr [.str "array"]
                    else .arr [.str "array", .str "null"]),
           ("items", .obj sub)] ∧
    (field.override = none → clsLookup mp field.cls = none →
      isNestedInstance field.cls = true → field.validators = [] → field.metadata = [] →
      translateField (dumpSchema fuel) mp field =
        .ok [("type", if field.required then .arr [.str "array"]
                      else .arr [.str "array", .str "null"]),
             ("items", .obj sub)]) := by
  constructor
  · simp [from_nested_schema, hsub, hmany]
  · intro hov hlk hni hvs hmd
    simp [translateField, resolveBase, hov, hlk, hni, from_nested_schema, hsub, hmany, hvs,
      apply_metadata, mdTitle, mdDescription, metaSubDict, dget, pyGet, hmd]

theorem foldl_applyValidator_other (s : Frag) (l1 l2 : List Validator) (nm : String) :
    (l1 ++ Validator.other nm :: l2).foldl (fun s v => applyValidator s v) s =
    (l1 ++ l2).foldl (fun s v => applyValidator s v) s := by
  induction l1 generalizing s with
  | nil => rfl
  | cons v tl ih =>
    simp only [List.cons_append, List.foldl_cons]
    exact ih _

theorem resolveBase_setValidators (dump : SchemaObj → Except TranslationError Frag)
    (mp : ClsMapping) (field : FieldObj) (vs : List Validator) :
    resolveBase dump mp (field.setValidators vs) = resolveBase dump mp field := by
  obtain ⟨n, a, r, d, vs0, md, c, o, ns, m⟩ := field
  rfl

/-- Claim C7: a validator whose class is not a key of `FIELD_VALIDATORS` is
silently skipped — deleting it from the validator list leaves the translated
fragment exactly unchanged, and it can raise no error. -/
theorem claim_C7 (fuel : Nat) (mp : ClsMapping) (field : FieldObj)
    (l1 l2 : List Validator) (nm : String) :
    translateField (dumpSchema fuel) mp (field.setValidators (l1 ++ Validator.other nm :: l2)) =
    translateField (dumpSchema fuel) mp (field.setValidators (l1 ++ l2)) := by
  simp only [translateField, resolveBase_setValidators]
  cases hs : resolveBase (dumpSchema fuel) mp field with
  | error e => rfl
  | ok schema =>
    obtain ⟨n, a, r, d, vs0, md, c, o, ns, m⟩ := field
    simp only [FieldObj.setValidators, FieldObj.validators, FieldObj.metadata,
      apply_metadata, foldl_applyValidator_other]

/-- Claim C4: the metadata merger reads `title`/`description` from the
direct field-level metadata keys, falling back to the nested `metadata`
sub-dict; the direct key is preferred; a key is written to the fragment only
when the value found is truthy (overriding whatever an earlier step set),
and the fragment is left untouched otherwise; and in the field translation
the merger runs last, on the fragment the dispatch and validator steps
produced. -/
theorem claim_C4 (fuel : Nat) (mp : ClsMapping) (field : FieldObj) (schema : Frag) :
    (∀ v, dget field.metadata "title" = some v → mdTitle field.metadata = some v) ∧
    (∀ v, dget field.metadata "description" = some v →
      mdDescription field.metadata = some v) ∧
    (dget field.metadata "title" = none →
      mdTitle field.metadata = dget (metaSubDict field.metadata) "title") ∧
    (dget field.metadata "description" = none →
      mdDescription field.metadata = dget (metaSubDict field.metadata) "description") ∧
    (truthyOpt (mdTitle field.metadata) = true →
      dget (apply_metadata field schema) "title" = mdTitle field.metadata) ∧
    (truthyOpt (mdDescription field.metadata) = true →
      dget (apply_metadata field schema) "description" = mdDescription field.metadata) ∧
    (truthyOpt (mdTitle field.metadata) = false →
      dget (apply_metadata field schema) "title" = dget schema "title") ∧
    (truthyOpt (mdDescription field.metadata) = false →
      dget (apply_metadata field schema) "description" = dget schema "description") ∧
    (truthyOpt (mdTitle field.metadata) = false ∧
        truthyOpt (mdDescription field.metadata) = false →
      apply_metadata field schema = schema) ∧
    (∀ frag, translateField (dumpSchema fuel) mp field = .ok frag →
      ∃ s0, frag = apply_metadata field s0) := by
  refine ⟨?_, ?_, ?_, ?_, ?_, ?_, ?_, ?_, ?_, ?_⟩
  · intro v h; simp [mdTitle, pyGet, h]
  · intro v h; simp [mdDescription, pyGet, h]
  · intro h; simp [mdTitle, pyGet, h]
  · intro h; simp [mdDescription, pyGet, h]
  · intro htr
    cases hT : mdTitle field.metadata with
    | none => rw [hT] at htr; cases htr
    | some t =>
      rw [hT] at htr
      simp only [truthyOpt] at htr
      cases hD : mdDescription field.metadata with
      | none =>
        simp [apply_metadata, hT, hD, htr]
        exact dget_dinsert_self schema "title" t
      | some d =>
        cases hdt : truthy d with
        | false =>
          simp [apply_metadata, hT, hD, htr, hdt]
          exact dget_dinsert_self schema "title" t
        | true =>
          simp [apply_metadata, hT, hD, htr, hdt]
          rw [dget_dinsert_ne (dinsert schema "title" t) "description" "title" d (by decide)]
          exact dget_dinsert_self schema "title" t
  · intro htr
    cases hD : mdDescription field.metadata with
    | none => rw [hD] at htr; cases htr
    | some d =>
      rw [hD] at htr
      simp only [truthyOpt] at htr
      cases hT : mdTitle field.metadata with
      | none =>
        simp [apply_metadata, hT, hD, htr]
        exact dget_dinsert_self schema "description" d
      | some t =>
        cases hdt : truthy t with
        | false =>
          simp [apply_metadata, hT, hD, htr, hdt]
          exact dget_dinsert_self schema "description" d
        | true =>
          simp [apply_metadata, hT, hD, htr, hdt]
          exact dget_dinsert_self (dinsert schema "title" t) "description" d
  · intro htr
    cases hT : mdTitle field.metadata with
    | none =>
      cases hD : mdDescription field.metadata with
      | none => simp [apply_metadata, hT, hD]
      | some d =>
        cases hdt : truthy d with
        | false => simp [apply_metadata, hT, hD, hdt]
        | true =>
          simp [apply_metadata, hT, hD, hdt]
          exact dget_dinsert_ne schema "description" "title" d (by decide)
    | some t =>
      rw [hT] at htr
      simp only [truthyOpt] at htr
      cases hD : mdDescription field.metadata with
      | none => simp [apply_metadata, hT, hD, htr]
      | some d =>
        cases hdt : truthy d with
        | false => simp [apply_metadata, hT, hD, htr, hdt]
        | true =>
          simp [apply_metadata, hT, hD, htr, hdt]
          exact dget_dinsert_ne schema "description" "title" d (by decide)
  · intro htr
    cases hD : mdDescription field.metadata with
    | none =>
      cases hT : mdTitle field.metadata with
      | none => simp [apply_metadata, hT, hD]
      | some t =>
        cases hdt : truthy t with
        | false => simp [apply_metadata, hT, hD, hdt]
        | true =>
          simp [apply_metadata, hT, hD, hdt]
          exact dget_dinsert_ne schema "title" "description" t (by decide)
    | some d =>
      rw [hD] at htr
      simp only [truthyOpt] at htr
      cases hT : mdTitle field.metadata with
      | none => simp [apply_metadata, hT, hD, htr]
      | some t =>
        cases hdt : truthy t with
        | false => simp [apply_metadata, hT, hD, htr, hdt]
        | true =>
          simp [apply_metadata, hT, hD, htr, hdt]
          exact dget_dinsert_ne schema "title" "description" t (by decide)
  · rintro ⟨ht, hd⟩
    cases hT : mdTitle field.metadata with
    | none =>
      cases hD : mdDescription field.metadata with
      | none => simp [apply_metadata, hT, hD]
      | some d =>
        rw [hD] at hd
        simp only [truthyOpt] at hd
        simp [apply_metadata, hT, hD, hd]
    | some t =>
      rw [hT] at ht
      simp only [truthyOpt] at ht
      cases hD : mdDescription field.metadata with
      | none => simp [apply_metadata, hT, hD, ht]
      | some d =>
        rw [hD] at hd
        simp only [truthyOpt] at hd
        simp [apply_metadata, hT, hD, ht, hd]
  · intro frag h
    simp only [translateField] at h
    cases hs : resolveBase (dumpSchema fuel) mp field with
    | error e => rw [hs] at h; cases h
    | ok s =>
      rw [hs] at h
      cases h
      exact ⟨_, rfl⟩

theorem string_append_assoc (a b c : String) : (a ++ b) ++ c = a ++ (b ++ c) :=
  congrArg String.mk (List.append_assoc a.data b.data c.data)

theorem occursIn_append_mid (a pat b : String) : occursIn (a ++ pat ++ b) pat = true := by
  have h := occursChars_append a.data pat.data b.data
  simpa [occursIn, List.append_assoc] using h

theorem occursIn_unsupportedMsg_cls (field : FieldObj) :
    occursIn (unsupportedMsg field) field.cls.clsName = true := by
  have h2 : unsupportedMsg field =
      ("unsupported field type " ++ "<fields.") ++ field.cls.clsName ++
        ("(attribute=" ++ (match field.attr with | some a => a | none => "None") ++
          ", required=" ++ (if field.required then "True" else "False") ++ ")>") := by
    simp only [unsupportedMsg, fieldRepr, string_append_assoc]
  rw [h2]
  exact occursIn_append_mid _ _ _

/-- Claim C5 (amended): a field whose class is unmapped, has no override and
no `Nested` ancestry raises the unsupported-field `ValueError`; the message
contains the field class name; and a schema containing such a field dumps to
an error, never to a document.  Amended from the original claim: the bound
field name is not part of the message (see the counterexample). -/
theorem claim_C5 (fuel : Nat) (tm : List (PyType × FieldCls)) (field : FieldObj)
    (hov : field.override = none)
    (hlk : clsLookup (mkMapping tm) field.cls = none)
    (hni : isNestedInstance field.cls = false) :
    translateField (dumpSchema fuel) (mkMapping tm) field =
      .error (.unsupportedField (unsupportedMsg field)) ∧
    occursIn (unsupportedMsg field) field.cls.clsName = true ∧
    (∀ fs doc, field ∈ fs → dumpSchema fuel (.mk tm fs) ≠ .ok doc) := by
  have h1 : ∀ dump, translateField dump (mkMapping tm) field =
      .error (.unsupportedField (unsupportedMsg field)) := by
    intro dump
    simp [translateField, resolveBase, hov, hlk, hni]
  refine ⟨h1 _, occursIn_unsupportedMsg_cls field, ?_⟩
  intro fs doc hmem h
  cases fuel with
  | zero => simp only [dumpSchema] at h; cases h
  | succ n =>
    simp only [dumpSchema, get_properties, SchemaObj.typeMapping, SchemaObj.fields] at h
    cases hp : translateFields (fun s => dumpSchema n s) (mkMapping tm) (sortFields fs) with
    | error e => rw [hp] at h; cases h
    | ok props =>
      obtain ⟨s, hs⟩ := translateFields_ok_mem _ _ _ _ field hp
        ((sortFields_perm fs).mem_iff.mpr hmem)
      rw [h1 _] at hs
      cases hs

/-- Counterexample to C5 as stated: the unsupported-field message for a
concrete field does not contain the field bound name (the host framework
field repr shows the class and attributes only), refuting the claim that the
error message includes the field name. -/
theorem claim_C5_counterexample :
    dumpSchema 1 (.mk [] [unmappedField]) =
      .error (.unsupportedField (unsupportedMsg unmappedField)) ∧
    occursIn (unsupportedMsg unmappedField) "zzuniqueqq" = false ∧
    occursIn (unsupportedMsg unmappedField) "CustomThing" = true :=
  ⟨rfl, by decide, by decide⟩

/-- Witness for the amended C5 at a concrete unmapped field. -/
theorem claim_C5_witness :
    translateField (dumpSchema 2) (mkMapping []) unmappedField =
      .error (.unsupportedField (unsupportedMsg unmappedField)) ∧
    occursIn (unsupportedMsg unmappedField) "CustomThing" = true ∧
    (∀ doc, dumpSchema 2 (SchemaObj.mk [] [unmappedField]) ≠ .ok doc) := by
  obtain ⟨h1, h2, h3⟩ := claim_C5 2 [] unmappedField rfl rfl rfl
  exact ⟨h1, h2, fun doc => h3 [unmappedField] doc (by simp)⟩

/-- Claim C6 (amended): the starting-fragment resolution is, first match
wins — (1) the self-describing override, (2) the exact field class in the
kind-to-native-type mapping, (3) the `isinstance(Nested)` recursion, (4) the
unsupported-field error — and the translated fragment is the metadata merger
applied to the validator fold over the resolved base.  Amended from the
original claim: the mapping lookup precedes the nested check, so a
Nested-derived class with its own mapping entry translates through the
table. -/
theorem claim_C6 (fuel : Nat) (mp : ClsMapping) (field : FieldObj) :
    (∀ o, field.override = some o →
      resolveBase (dumpSchema fuel) mp field = .ok o) ∧
    (∀ T, field.override = none → clsLookup mp field.cls = some T →
      resolveBase (dumpSchema fuel) mp field =
        (match from_python_type field T with
          | some schema => .ok schema
          | none => .error (.typeMapKeyError T))) ∧
    (field.override = none → clsLookup mp field.cls = none →
      isNestedInstance field.cls = true →
      resolveBase (dumpSchema fuel) mp field = from_nested_schema (dumpSchema fuel) field) ∧
    (field.override = none → clsLookup mp field.cls = none →
      isNestedInstance field.cls = false →
      resolveBase (dumpSchema fuel) mp field =
        .error (.unsupportedField (unsupportedMsg field))) ∧
    (∀ frag, translateField (dumpSchema fuel) mp field = .ok frag →
      ∃ s0, resolveBase (dumpSchema fuel) mp field = .ok s0 ∧
        frag = apply_metadata field
          (field.validators.foldl (fun s v => applyValidator s v) s0)) := by
  refine ⟨?_, ?_, ?_, ?_, ?_⟩
  · intro o ho; simp [resolveBase, ho]
  · intro T ho hT; simp [resolveBase, ho, hT]
  · intro ho hT hni; simp [resolveBase, ho, hT, hni]
  · intro ho hT hni; simp [resolveBase, ho, hT, hni]
  · intro frag h
    simp only [translateField] at h
    cases hs : resolveBase (dumpSchema fuel) mp field with
    | error e => rw [hs] at h; cases h
    | ok s =>
      rw [hs] at h
      cases h
      exact ⟨s, rfl, rfl⟩

/-- Counterexample to C6 as stated: for a `Nested`-class field whose class
also has a mapping entry, the code resolves through the type table while the
spec order would recurse into the nested schema; the results differ. -/
theorem claim_C6_counterexample :
    translateField (dumpSchema 3) (mkMapping nestedMappedTM) nestedMappedField =
      .ok [("title", .str "thing"), ("type", .str "object")] ∧
    translateFieldSpecOrder (dumpSchema 3) (mkMapping nestedMappedTM) nestedMappedField =
      .ok [("properties", .obj []), ("type", .str "object"), ("required", .arr [])] ∧
    translateField (dumpSchema 3) (mkMapping nestedMappedTM) nestedMappedField ≠
      translateFieldSpecOrder (dumpSchema 3) (mkMapping nestedMappedTM) nestedMappedField := by
  refine ⟨rfl, rfl, ?_⟩
  intro h
  have h2 := congrArg (fun r => match r with
    | Except.ok s => (dget s "properties").isSome
    | Except.error _ => false) h
  exact absurd h2 (by decide)

/-- Witness for the amended C6 at a concrete mapped integer field. -/
theorem claim_C6_witness :
    resolveBase (dumpSchema 3) (mkMapping sampleTypeMapping) ageField =
      .ok [("title", .str "age"), ("type", .str "number"), ("format", .str "integer")] :=
  (claim_C6 3 (mkMapping sampleTypeMapping) ageField).2.1 PyType.int rfl rfl

/-- Claim C10: type dispatch is by exact runtime class, never by
inheritance — a field whose class is a strict subclass of a mapped class but
has no entry of its own, no override and no `Nested` ancestry raises the
unsupported-field error instead of reusing the parent fragment. -/
theorem claim_C10 (fuel : Nat) (tm : List (PyType × FieldCls)) (field : FieldObj)
    (parent : FieldCls)
    (hov : field.override = none)
    (_hanc : parent.clsName ∈ field.cls.ancestors)
    (_hpm : clsLookup (mkMapping tm) parent ≠ none)
    (hlk : clsLookup (mkMapping tm) field.cls = none)
    (hni : isNestedInstance field.cls = false) :
    translateField (dumpSchema fuel) (mkMapping tm) field =
      .error (.unsupportedField (unsupportedMsg field)) := by
  simp [translateField, resolveBase, hov, hlk, hni]

/-- Witness for C10 at a concrete unmapped subclass of the mapped String
class. -/
theorem claim_C10_witness :
    myStrField.override = none ∧
    strCls.clsName ∈ myStrField.cls.ancestors ∧
    clsLookup (mkMapping sampleTypeMapping) strCls = some PyType.text ∧
    clsLookup (mkMapping sampleTypeMapping) myStrField.cls = none ∧
    isNestedInstance myStrField.cls = false ∧
    translateField (dumpSchema 2) (mkMapping sampleTypeMapping) myStrField =
      .error (.unsupportedField (unsupportedMsg myStrField)) :=
  ⟨rfl, by decide, rfl, rfl, rfl,
    claim_C10 2 sampleTypeMapping myStrField strCls rfl (by decide) (by decide) rfl rfl⟩

theorem recDepthFields_gt (mp : ClsMapping) :
    ∀ (l : List FieldObj) (n : Nat), n < recDepthFields mp l →
    ∃ f, f ∈ l ∧ n < recDepthField mp f := by
  intro l
  induction l with
  | nil =>
    intro n h
    simp only [recDepthFields] at h
    omega
  | cons f tl ih =>
    intro n h
    simp only [recDepthFields] at h
    rcases lt_max_iff.mp h with h2 | h2
    · exact ⟨f, List.mem_cons_self f tl, h2⟩
    · obtain ⟨g, hg, hgd⟩ := ih n h2
      exact ⟨g, List.mem_cons_of_mem f hg, hgd⟩

theorem recDepthField_pos_decomp (mp : ClsMapping) (f : FieldObj) (n : Nat)
    (h : n < recDepthField mp f) :
    f.override = none ∧ clsLookup mp f.cls = none ∧ isNestedInstance f.cls = true ∧
    n < recDepth f.nestedSub := by
  obtain ⟨nm, a, r, d, vs, md, c, o, ns, m⟩ := f
  cases o with
  | some ov => simp [recDepthField] at h
  | none =>
    cases hl : clsLookup mp c with
    | some t => simp [recDepthField, hl] at h
    | none =>
      cases hni : isNestedInstance c with
      | false => simp [recDepthField, hl, hni] at h
      | true =>
        simp only [recDepthField, hl, hni, if_true] at h
        exact ⟨rfl, hl, hni, h⟩

theorem dumpSchema_depth_exceeded : ∀ (fuel : Nat) (s : SchemaObj), fuel < recDepth s →
    ∀ doc, dumpSchema fuel s ≠ .ok doc := by
  intro fuel
  induction fuel with
  | zero =>
    intro s _ doc h
    simp only [dumpSchema] at h
    cases h
  | succ n ih =>
    intro s hdepth doc h
    obtain ⟨tm, fs⟩ := s
    simp only [dumpSchema, get_properties, SchemaObj.typeMapping, SchemaObj.fields] at h
    cases hp : translateFields (fun s => dumpSchema n s) (mkMapping tm) (sortFields fs) with
    | error e => rw [hp] at h; cases h
    | ok props =>
      have hd2 : n < recDepthFields (mkMapping tm) fs := by
        simp only [recDepth] at hdepth
        omega
      obtain ⟨f, hmem, hf⟩ := recDepthFields_gt (mkMapping tm) fs n hd2
      obtain ⟨hov, hlk, hni, hdeep⟩ := recDepthField_pos_decomp (mkMapping tm) f n hf
      obtain ⟨sfrag, hsf⟩ := translateFields_ok_mem _ _ _ _ f hp
        ((sortFields_perm fs).mem_iff.mpr hmem)
      simp only [translateField, resolveBase, hov, hlk, hni, if_true,
        from_nested_schema] at hsf
      cases hsub : dumpSchema n f.nestedSub with
      | error e => rw [hsub] at hsf; cases hsf
      | ok subdoc => exact ih f.nestedSub hdeep subdoc hsub

theorem dumpSchema_chain (fuel : Nat) :
    dumpSchema fuel (chainSchema fuel) = .error .recursionLimit := by
  induction fuel with
  | zero => rfl
  | succ n ih =>
    simp only [dumpSchema, chainSchema, get_properties, SchemaObj.typeMapping,
      SchemaObj.fields, plainNestedField, sortFields, List.insertionSort,
      List.orderedInsert, translateFields, translateField, resolveBase,
      FieldObj.override, FieldObj.cls, from_nested_schema, FieldObj.nestedSub]
    rw [show clsLookup (mkMapping []) nestedCls = none from rfl,
      show isNestedInstance nestedCls = true from rfl]
    simp only [if_true]
    rw [ih]

/-- Claim C9: exceeding the recursion budget makes the whole translation
fail — never return a document — and on a pure nested chain the error is
exactly the recursion-limit error.  The configured maximum depth is the
Python interpreter recursion limit, modelled by the fuel parameter; `base.py`
installs no guard of its own, so the interpreter error propagates. -/
theorem claim_C9 (fuel : Nat) :
    (∀ s : SchemaObj, fuel < recDepth s → ∀ doc, dumpSchema fuel s ≠ .ok doc) ∧
    dumpSchema fuel (chainSchema fuel) = .error .recursionLimit :=
  ⟨dumpSchema_depth_exceeded fuel, dumpSchema_chain fuel⟩

/-- Witness for C9 at a concrete chain of depth three with budget two. -/
theorem claim_C9_witness :
    (2 < recDepth (chainSchema 2) ∧ ∀ doc, dumpSchema 2 (chainSchema 2) ≠ .ok doc) ∧
    dumpSchema 2 (chainSchema 2) = .error .recursionLimit :=
  ⟨⟨by decide, (claim_C9 2).1 (chainSchema 2) (by decide)⟩, (claim_C9 2).2⟩

/-- Witness for C1 at a concrete required integer field. -/
theorem claim_C1_witness :
    ageField.override = none ∧
    clsLookup (mkMapping sampleTypeMapping) ageField.cls = some PyType.int ∧
    TYPE_MAP PyType.int = some [("type", .str "number"), ("format", .str "integer")] ∧
    ageField.validators = [] ∧ ageField.metadata = [] ∧
    translateField (dumpSchema 3) (mkMapping sampleTypeMapping) ageField =
      .ok [("title", .str "age"), ("type", .str "number"), ("format", .str "integer")] :=
  ⟨rfl, rfl, rfl, rfl, rfl,
    claim_C1 3 (mkMapping sampleTypeMapping) ageField PyType.int
      [("type", .str "number"), ("format", .str "integer")] rfl rfl rfl rfl rfl⟩

/-- Witness for C2 at a concrete two-field schema. -/
theorem claim_C2_witness :
    (([nameField, ageField]).map FieldObj.name).Nodup ∧
    ∃ doc, dumpSchema 2 (.mk sampleTypeMapping [nameField, ageField]) = .ok doc ∧
      ∃ props, dget doc "properties" = some (.obj props) ∧
        dget doc "required" =
          some (.arr ((get_required
            (SchemaObj.mk sampleTypeMapping [nameField, ageField])).map Value.str)) ∧
        props.map Prod.fst = (sortFields [nameField, ageField]).map FieldObj.name ∧
        List.Perm (props.map Prod.fst) ([nameField, ageField].map FieldObj.name) ∧
        (∀ nm, nm ∈ get_required (SchemaObj.mk sampleTypeMapping [nameField, ageField]) ↔
          ∃ f, f ∈ [nameField, ageField] ∧ f.required = true ∧ f.name = nm) ∧
        (get_required (SchemaObj.mk sampleTypeMapping [nameField, ageField])).Nodup ∧
        (∀ nm, nm ∈ get_required (SchemaObj.mk sampleTypeMapping [nameField, ageField]) →
          nm ∈ props.map Prod.fst) := by
  refine ⟨by decide, _, rfl, ?_⟩
  exact claim_C2 2 sampleTypeMapping [nameField, ageField] _ (by decide) rfl

/-- Witness for C3 at a concrete optional nested-many field. -/
theorem claim_C3_witness :
    kidsField.many = true ∧
    ∃ sub, dumpSchema 2 kidsField.nestedSub = .ok sub ∧
      from_nested_schema (dumpSchema 2) kidsField =
        .ok [("type", .arr [.str "array", .str "null"]), ("items", .obj sub)] := by
  refine ⟨rfl, _, rfl, ?_⟩
  exact (claim_C3 2 (mkMapping sampleTypeMapping) kidsField _ rfl rfl).1

/-- Witness for C4 at a field carrying both metadata sources. -/
theorem claim_C4_witness :
    dget metaField.metadata "title" = some (.str "X") ∧
    mdTitle metaField.metadata = some (.str "X") ∧
    truthyOpt (mdTitle metaField.metadata) = true ∧
    dget (apply_metadata metaField [("type", .str "string"), ("title", .str "old")])
      "title" = mdTitle metaField.metadata ∧
    dget (apply_metadata metaField [("type", .str "string"), ("title", .str "old")])
      "description" = mdDescription metaField.metadata := by
  have hc := claim_C4 1 [] metaField [("type", .str "string"), ("title", .str "old")]
  exact ⟨rfl, hc.1 _ rfl, rfl, hc.2.2.2.2.1 rfl, hc.2.2.2.2.2.1 rfl⟩

/-- Witness for C8 at a concrete two-field schema and its swap. -/
theorem claim_C8_witness :
    List.Perm [ageField, nameField] [nameField, ageField] ∧
    (([ageField, nameField]).map FieldObj.name).Nodup ∧
    (dumpSchema 2 (.mk sampleTypeMapping [ageField, nameField]) =
      dumpSchema 2 (.mk sampleTypeMapping [nameField, ageField])) ∧
    List.Sorted (fun a b => strLe a b = true)
      (get_required (SchemaObj.mk sampleTypeMapping [ageField, nameField])) := by
  have hc := claim_C8 2 1 sampleTypeMapping [ageField, nameField] [nameField, ageField]
    (List.Perm.swap nameField ageField []) (by decide)
  exact ⟨List.Perm.swap nameField ageField [], by decide, hc.1, hc.2.1⟩
